import Mathlib

/-!
# stock-service: the trailing-window calculation of `getStockCloses`

A shallow embedding of `src/main.go`.  The handler `getStockCloses` fetches a
daily series from an upstream API, walks backwards from `time.Now()` over the
last `numDays` business days, looks each day's close up in the series and
returns the closes together with their average.

Modelling choices:

* `float64` is the type `F64`: NaN, the two infinities, and finite values kept
  as a sign and a rational magnitude (so that `-0` exists).  Every arithmetic
  result is the exact rational result rounded to nearest, ties to even, on the
  binary64 grid (53 bits, subnormals down to `2^-1074`, overflow to infinity).
* `time.Time` is the calendar day of the instant in its location (days since
  1970-01-01), its wall-clock second of the day and its location.  `Weekday()`
  and `Format("2006-01-02")` read the calendar day.  `AddDate(0, 0, -k)` goes
  through `time.Date` with the wall-clock time of the receiver: where that
  wall-clock time does not exist on the requested day (a gap of the zone, as
  at the start of daylight saving time), the result can fall on a neighbouring
  day.  The zone rules are not part of the repository; a `Location` carries
  what `time.Date` makes of them.
* Go `int` is `Int`; the loop counter never gets near the 64-bit bounds for a
  day count the process could hold in memory.
* The `http.ResponseWriter` is the list of calls made on it.
-/

namespace StockService

/-! ## float64 -/

/-- A binary64 value: NaN, an infinity, or a finite value given by its sign
and its magnitude (a non-negative rational on the binary64 grid). -/
inductive F64 where
  | nan : F64
  | inf (neg : Bool) : F64
  | fin (neg : Bool) (mag : ℚ) : F64
deriving DecidableEq

namespace F64

/-- Number of binary digits of `n`, by repeated halving (`fuel` bounds the
number of halvings). -/
def bitLenAux : Nat → Nat → Nat
  | 0, _ => 0
  | fuel + 1, n => if n = 0 then 0 else bitLenAux fuel (n / 2) + 1

/-- Number of binary digits of `n` (`0` for `0`). -/
def bitLen (n : Nat) : Nat := bitLenAux n n

/-- The least exponent `p' ≥ p` (within `fuel` steps) such that `q / 2^p'`
fits in 53 bits. -/
def quantum (q : ℚ) : Nat → Int → Int
  | 0, p => p
  | fuel + 1, p => if q / (2 : ℚ) ^ p < 2 ^ 53 then p else quantum q fuel (p + 1)

/-- Round a non-negative rational to the nearest integer, ties to even. -/
def roundHalfEven (s : ℚ) : Int :=
  let f := ⌊s⌋
  let r := s - f
  if r < 1 / 2 then f
  else if 1 / 2 < r then f + 1
  else if f % 2 = 0 then f else f + 1

/-- Round the magnitude `q ≥ 0` to binary64 (nearest, ties to even) and attach
the sign `neg`.  The unit in the last place is `2^p`, where `p` is the least
exponent `≥ -1074` for which `q / 2^p < 2^53`; the bit lengths of numerator and
denominator give `p` up to one step. -/
def round (neg : Bool) (q : ℚ) : F64 :=
  if q = 0 then fin neg 0
  else
    let e0 : Int := (bitLen q.num.natAbs : Int) - (bitLen q.den : Int)
    let p := quantum q 2 (max (e0 - 53) (-1074))
    let r := (roundHalfEven (q / (2 : ℚ) ^ p) : ℚ) * (2 : ℚ) ^ p
    if (2 : ℚ) ^ 1024 ≤ r then inf neg else fin neg r

/-- Positive zero, the value of the Go literal `0`. -/
def zero : F64 := fin false 0

/-- Go `x + y` on `float64`. -/
def add : F64 → F64 → F64
  | nan, _ => nan
  | _, nan => nan
  | inf a, inf b => if a = b then inf a else nan
  | inf a, fin _ _ => inf a
  | fin _ _, inf b => inf b
  | fin s1 m1, fin s2 m2 =>
    let x := (if s1 then -m1 else m1) + (if s2 then -m2 else m2)
    if x = 0 then fin (s1 && s2) 0 else round (decide (x < 0)) |x|

/-- Go `x / y` on `float64` (a run-time division: no panic on a zero
divisor). -/
def div : F64 → F64 → F64
  | nan, _ => nan
  | _, nan => nan
  | inf _, inf _ => nan
  | inf a, fin s _ => inf (xor a s)
  | fin s _, inf b => fin (xor s b) 0
  | fin s1 m1, fin s2 m2 =>
    if m2 = 0 then (if m1 = 0 then nan else inf (xor s1 s2))
    else round (xor s1 s2) (m1 / m2)

/-- Go conversion `float64(n)` of an `int`. -/
def ofInt (n : Int) : F64 := round (decide (n < 0)) |(n : ℚ)|

/-- Whether the value is NaN. -/
def isNaN : F64 → Bool
  | nan => true
  | _ => false

/-- Whether the value is finite (what `encoding/json` accepts). -/
def isFinite : F64 → Bool
  | fin _ _ => true
  | _ => false

end F64

/-! ## time.Time -/

/-- Go `time.Weekday` (`Sunday = 0`, ..., `Saturday = 6`). -/
inductive Weekday where
  | Sunday | Monday | Tuesday | Wednesday | Thursday | Friday | Saturday
deriving DecidableEq, Repr

/-- The `time.Weekday` with number `n % 7`. -/
def Weekday.ofIndex (n : Nat) : Weekday :=
  match n % 7 with
  | 0 => .Sunday
  | 1 => .Monday
  | 2 => .Tuesday
  | 3 => .Wednesday
  | 4 => .Thursday
  | 5 => .Friday
  | _ => .Saturday

/-- Go `*time.Location`, as far as `time.Date` depends on it.  `date d c` is
the calendar day and the wall-clock second of the day of the instant that
`time.Date` returns when asked for second `c` of day `d` in this location.
Where that wall-clock time exists it is `(d, c)` itself; in a gap of the zone
`time.Date` returns a time that is correct in one of the two zones around the
transition, an hour (the width of the gap) earlier or later, which can be on
the day before or after `d`. -/
structure Location where
  date : Int → Nat → Int × Nat

/-- A `time.Time`: the calendar day of the instant in its location (days since
1970-01-01), the wall-clock second of that day, and the location. -/
structure Time where
  day : Int
  clock : Nat
  loc : Location

namespace Time

/-- Go `t.AddDate(0, 0, days)` (the handler passes zero years and months):
`time.Date` with the date of `t` moved by `days` and the wall-clock time and
location of `t`. -/
def AddDate (t : Time) (days : Int) : Time :=
  let r := t.loc.date (t.day + days) t.clock
  ⟨r.1, r.2, t.loc⟩

/-- Go `t.Weekday()`; 1970-01-01 was a Thursday. -/
def Weekday (t : Time) : StockService.Weekday :=
  StockService.Weekday.ofIndex ((t.day + 4) % 7).toNat

/-- Year, month and day of the proleptic Gregorian date with the given day
number (days since 1970-01-01). -/
def civil (z0 : Int) : Int × Int × Int :=
  let z := z0 + 719468
  let era := z / 146097
  let doe := z - era * 146097
  let yoe := (doe - doe / 1460 + doe / 36524 - doe / 146096) / 365
  let doy := doe - (365 * yoe + yoe / 4 - yoe / 100)
  let mp := (5 * doy + 2) / 153
  let d := doy - (153 * mp + 2) / 5 + 1
  let m := if mp < 10 then mp + 3 else mp - 9
  let y := yoe + era * 400 + (if m ≤ 2 then 1 else 0)
  (y, m, d)

/-- Decimal digits of `n`, zero-padded on the left to `width` digits. -/
def padLeft (width : Nat) (n : Nat) : String :=
  let s := toString n
  String.mk (List.replicate (width - s.length) '0') ++ s

/-- Go `appendInt`: an optional minus sign, then the zero-padded digits. -/
def appendInt (x : Int) (width : Nat) : String :=
  if x < 0 then "-" ++ padLeft width x.natAbs else padLeft width x.natAbs

/-- Go `t.Format("2006-01-02")`: year-month-day. -/
def Format (t : Time) : String :=
  let (y, m, d) := civil t.day
  appendInt y 4 ++ "-" ++ appendInt m 2 ++ "-" ++ appendInt d 2

end Time

/-- Whether a weekday is Monday to Friday. -/
def Weekday.isBusinessDay : Weekday → Bool
  | .Saturday => false
  | .Sunday => false
  | _ => true

/-! ## The handler -/

/-- The decoded `stockQueryResponse`: the map `Series` from a date string to
the `Close` of that day (`none` for a key that is not in the map). -/
structure stockQueryResponse where
  Series : String → Option F64

/-- Go `stockData.Series[key].Close`: the zero value for a missing key. -/
def stockQueryResponse.closeAt (stockData : stockQueryResponse) (key : String) : F64 :=
  (stockData.Series key).getD F64.zero

/-- The response object of `getStockCloses`. -/
structure getStockClosesResponse where
  Stock : String
  Data : List F64
  Close : F64
deriving DecidableEq

/-- The variables of the trailing-window loop.  `lookedUp` is not a program
variable: it records the `targetDay` of every lookup, in order. -/
structure LoopState where
  i : Int
  weekendCompensator : Int
  Data : List F64
  cumulativeStockClose : F64
  lookedUp : List Time

/-- The compensator after the `switch targetDay.Weekday()` of one iteration. -/
def compensate (targetDay : Time) (weekendCompensator : Int) : Int :=
  match targetDay.Weekday with
  | .Saturday => weekendCompensator + 1
  | .Sunday => weekendCompensator + 2
  | _ => weekendCompensator

/-- One iteration of the loop body (lines 122 to 136), followed by `i++`. -/
def loopBody (stockData : stockQueryResponse) (now : Time) (s : LoopState) : LoopState :=
  let targetDay := now.AddDate (-(s.i + s.weekendCompensator))
  let weekendCompensator := compensate targetDay s.weekendCompensator
  let targetDay := now.AddDate (-(s.i + weekendCompensator))
  let formattedDayToReturn := targetDay.Format
  let thisDayClose := stockData.closeAt formattedDayToReturn
  { i := s.i + 1
    weekendCompensator := weekendCompensator
    Data := s.Data ++ [thisDayClose]
    cumulativeStockClose := F64.add s.cumulativeStockClose thisDayClose
    lookedUp := s.lookedUp ++ [targetDay] }

/-- The loop `for ; i <= numDays; i++`, unrolled at most `fuel` times. -/
def loop (stockData : stockQueryResponse) (now : Time) (numDays : Int) :
    Nat → LoopState → LoopState
  | 0, s => s
  | fuel + 1, s =>
    if s.i ≤ numDays then loop stockData now numDays fuel (loopBody stockData now s) else s

/-- The loop state at `i := 1`. -/
def initState : LoopState :=
  { i := 1, weekendCompensator := 0, Data := [], cumulativeStockClose := F64.zero, lookedUp := [] }

/-- The state in which the loop of `getStockCloses` ends; `numDays.toNat`
iterations are all it can make (see `windowState_exit`). -/
def windowState (stockData : stockQueryResponse) (now : Time) (numDays : Int) : LoopState :=
  loop stockData now numDays numDays.toNat initState

/-- Lines 111 to 139: the response object built from the decoded series. -/
def trailingWindow (stockSymbol : String) (numDays : Int) (stockData : stockQueryResponse)
    (now : Time) : getStockClosesResponse :=
  let s := windowState stockData now numDays
  { Stock := stockSymbol
    Data := s.Data
    Close := F64.div s.cumulativeStockClose (F64.ofInt numDays) }

/-- What `http.Get` and the JSON decoder hand to the handler. -/
inductive Upstream where
  | getError (err : String) : Upstream
  | nilResponse : Upstream
  | decodeError (err : String) : Upstream
  | decoded (stockData : stockQueryResponse) : Upstream

/-- A call made on the `http.ResponseWriter`. -/
inductive WriterCall where
  | httpError (message : String) (code : Nat) : WriterCall
  | setHeader (key value : String) : WriterCall
  | encode (response : getStockClosesResponse) : WriterCall
deriving DecidableEq

/-- What one run of the handler does: the calls on the writer and the lines
logged on the server. -/
structure Outcome where
  writer : List WriterCall
  log : List String

/-- The message of every `http.Error` call of the handler. -/
def genericError : String := "There was an error processing your request"

/-- Go `http.StatusInternalServerError`. -/
def StatusInternalServerError : Nat := 500

/-- Whether `encoding/json` can encode the response: it rejects NaN and the
infinities. -/
def encodable (r : getStockClosesResponse) : Bool :=
  r.Data.all F64.isFinite && r.Close.isFinite

/-- Go `strconv.FormatFloat(f, 'g', -1, 64)` for a value that is not finite,
the text of a `json.UnsupportedValueError`. -/
def unsupportedText : F64 → String
  | .nan => "NaN"
  | .inf false => "+Inf"
  | .inf true => "-Inf"
  | .fin _ _ => ""

/-- The value on which `encoding/json` gives up: the first one that is not
finite, in the order of the fields (`Data`, then `Close`). -/
def firstUnsupported (r : getStockClosesResponse) : F64 :=
  match r.Data.find? (fun x => !x.isFinite) with
  | some x => x
  | none => r.Close

/-- The handler `getStockCloses`, given the process configuration, the
outcome of the upstream call and the value of `time.Now()`. -/
def getStockCloses (stockAPIAddr stockSymbol : String) (numDays : Int) (upstream : Upstream)
    (now : Time) : Outcome :=
  match upstream with
  | .getError err =>
    { writer := [.httpError genericError StatusInternalServerError]
      log := ["Error retreiving stock info from '" ++ stockAPIAddr ++ "': " ++ err] }
  | .nilResponse =>
    { writer := [.httpError genericError StatusInternalServerError]
      log := ["Stock info response was nil"] }
  | .decodeError err =>
    { writer := [.httpError genericError StatusInternalServerError]
      log := ["Error decoding stock info response: " ++ err] }
  | .decoded stockData =>
    let stockClosesResponse := trailingWindow stockSymbol numDays stockData now
    if encodable stockClosesResponse then
      { writer := [.setHeader "Content-Type" "application/json", .encode stockClosesResponse]
        log := [] }
    else
      { writer := [.setHeader "Content-Type" "application/json",
                   .httpError genericError StatusInternalServerError]
        log := ["Error encoding response object: json: unsupported value: " ++
                 unsupportedText (firstUnsupported stockClosesResponse)] }

/-! ## The dates the loop walks through -/

/-- The offset `i + weekendCompensator` of an iteration, from the offset `o`
of the iteration before it (`0` before the first). -/
def nextOffset (now : Time) (o : Int) : Int :=
  o + 1 + compensate (now.AddDate (-(o + 1))) 0

/-- The offsets of `n` consecutive iterations that follow the offset `o`. -/
def offsets (now : Time) : Nat → Int → List Int
  | 0, _ => []
  | n + 1, o => nextOffset now o :: offsets now n (nextOffset now o)

/-- The loop variables after `k` iterations of the loop body. -/
def stateAfter (stockData : stockQueryResponse) (now : Time) (k : Nat) : LoopState :=
  (loopBody stockData now)^[k] initState

/-! ## Sample inputs -/

/-- The location UTC: every wall-clock time exists on every day. -/
def UTC : Location := ⟨fun d c => (d, c)⟩

/-- The location America/Havana around March 2024.  Daylight saving time
began on Sunday 2024-03-10 (day 19792) at 00:00, the wall clock jumping to
01:00; for a wall-clock time in that hour `time.Date` returns the instant one
hour earlier, 23:00 to 24:00 of Saturday 2024-03-09. -/
def Havana : Location :=
  ⟨fun d c => if d = 19792 ∧ c < 3600 then (19791, c + 82800) else (d, c)⟩

/-- Monday 2024-01-08, 12:00 UTC, as a reference date. -/
def sampleMonday : Time := ⟨19730, 43200, UTC⟩

/-- Monday 2024-03-11, 00:30 in America/Havana, as a reference date. -/
def havanaMonday : Time := ⟨19793, 1800, Havana⟩

/-- A series with no entry. -/
def emptySeries : stockQueryResponse := ⟨fun _ => none⟩

/-- A series whose only entry is Friday 2024-01-05, with close 100. -/
def fridaySeries : stockQueryResponse :=
  ⟨fun key => if key = "2024-01-05" then some (F64.fin false 100) else none⟩

/-- A series with the closes 10 to 50 on Monday 2024-01-01 to Friday
2024-01-05. -/
def weekSeries : stockQueryResponse :=
  ⟨fun key =>
    if key = "2024-01-01" then some (F64.fin false 10)
    else if key = "2024-01-02" then some (F64.fin false 20)
    else if key = "2024-01-03" then some (F64.fin false 30)
    else if key = "2024-01-04" then some (F64.fin false 40)
    else if key = "2024-01-05" then some (F64.fin false 50)
    else none⟩

/-- A series with the closes 10 to 50 on Monday 2024-03-04 to Friday
2024-03-08. -/
def havanaWeekSeries : stockQueryResponse :=
  ⟨fun key =>
    if key = "2024-03-04" then some (F64.fin false 10)
    else if key = "2024-03-05" then some (F64.fin false 20)
    else if key = "2024-03-06" then some (F64.fin false 30)
    else if key = "2024-03-07" then some (F64.fin false 40)
    else if key = "2024-03-08" then some (F64.fin false 50)
    else none⟩

/-! ## Weekday arithmetic -/

theorem weekday_cases (t : Time) :
    (t.Weekday = .Sunday ∧ (t.day + 4) % 7 = 0) ∨
    (t.Weekday = .Monday ∧ (t.day + 4) % 7 = 1) ∨
    (t.Weekday = .Tuesday ∧ (t.day + 4) % 7 = 2) ∨
    (t.Weekday = .Wednesday ∧ (t.day + 4) % 7 = 3) ∨
    (t.Weekday = .Thursday ∧ (t.day + 4) % 7 = 4) ∨
    (t.Weekday = .Friday ∧ (t.day + 4) % 7 = 5) ∨
    (t.Weekday = .Saturday ∧ (t.day + 4) % 7 = 6) := by
  have h : (t.day + 4) % 7 = 0 ∨ (t.day + 4) % 7 = 1 ∨ (t.day + 4) % 7 = 2 ∨
      (t.day + 4) % 7 = 3 ∨ (t.day + 4) % 7 = 4 ∨ (t.day + 4) % 7 = 5 ∨
      (t.day + 4) % 7 = 6 := by omega
  rcases h with h | h | h | h | h | h | h <;>
    simp [Time.Weekday, h, Weekday.ofIndex]

theorem weekday_of_residue (t : Time) (r : Nat) (h : (t.day + 4) % 7 = r) :
    t.Weekday = Weekday.ofIndex r := by
  simp [Time.Weekday, h]

theorem business_iff (t : Time) :
    t.Weekday.isBusinessDay = true ↔ (1 ≤ (t.day + 4) % 7 ∧ (t.day + 4) % 7 ≤ 5) := by
  rcases weekday_cases t with h | h | h | h | h | h | h <;>
    simp [h.1, h.2, Weekday.isBusinessDay]

theorem compensate_add (t : Time) (w : Int) : compensate t w = w + compensate t 0 := by
  unfold compensate
  split <;> simp

theorem compensate_cases (t : Time) :
    (compensate t 0 = 0 ∧ 1 ≤ (t.day + 4) % 7 ∧ (t.day + 4) % 7 ≤ 5) ∨
    (compensate t 0 = 1 ∧ (t.day + 4) % 7 = 6) ∨
    (compensate t 0 = 2 ∧ (t.day + 4) % 7 = 0) := by
  rcases weekday_cases t with h | h | h | h | h | h | h <;>
    simp [compensate, h.1, h.2]

/-- The step from one offset to the next advances by one to three days,
whatever the location. -/
theorem nextOffset_bounds (now : Time) (o : Int) :
    o < nextOffset now o ∧ nextOffset now o ≤ o + 3 := by
  have hc := compensate_cases (now.AddDate (-(o + 1)))
  unfold nextOffset
  rcases hc with h | h | h <;> omega

/-! ## The list of offsets -/

theorem offsets_length (now : Time) (n : Nat) (o : Int) : (offsets now n o).length = n := by
  induction n generalizing o with
  | zero => rfl
  | succ n ih => simp [offsets, ih]

theorem offsets_gt (now : Time) (n : Nat) (o : Int) : ∀ y ∈ offsets now n o, o < y := by
  induction n generalizing o with
  | zero => intro y hy; simp [offsets] at hy
  | succ n ih =>
    intro y hy
    have h1 := (nextOffset_bounds now o).1
    simp only [offsets, List.mem_cons] at hy
    rcases hy with hy | hy
    · omega
    · have := ih _ y hy; omega

theorem offsets_pairwise (now : Time) (n : Nat) (o : Int) :
    (offsets now n o).Pairwise (fun a b => a < b) := by
  induction n generalizing o with
  | zero => simp [offsets]
  | succ n ih =>
    simp only [offsets, List.pairwise_cons]
    exact ⟨fun y hy => offsets_gt now n _ y hy, ih _⟩

/-! ## The loop -/

/-- The state after `n` iterations from a state with exactly `n` iterations
left: the counter, the compensator, the lookups, the closes and their sum. -/
theorem loop_spec (stockData : stockQueryResponse) (now : Time) (numDays : Int) (n : Nat)
    (s : LoopState) (h : s.i + n = numDays + 1) :
    (loop stockData now numDays n s).i = numDays + 1 ∧
    (loop stockData now numDays n s).lookedUp =
      s.lookedUp ++ (offsets now n (s.i - 1 + s.weekendCompensator)).map
        (fun o => now.AddDate (-o)) ∧
    (loop stockData now numDays n s).Data =
      s.Data ++ (offsets now n (s.i - 1 + s.weekendCompensator)).map
        (fun o => stockData.closeAt (now.AddDate (-o)).Format) ∧
    (loop stockData now numDays n s).cumulativeStockClose =
      ((offsets now n (s.i - 1 + s.weekendCompensator)).map
        (fun o => stockData.closeAt (now.AddDate (-o)).Format)).foldl F64.add
          s.cumulativeStockClose := by
  induction n generalizing s with
  | zero =>
    simp only [loop, offsets, List.map_nil, List.append_nil, List.foldl_nil, and_self, and_true]
    push_cast at h; omega
  | succ n ih =>
    have hle : s.i ≤ numDays := by push_cast at h; omega
    have hoff : (loopBody stockData now s).i - 1 + (loopBody stockData now s).weekendCompensator
        = nextOffset now (s.i - 1 + s.weekendCompensator) := by
      simp only [loopBody, nextOffset]
      rw [compensate_add]
      have : s.i - 1 + s.weekendCompensator + 1 = s.i + s.weekendCompensator := by ring
      rw [this]; ring
    have hsel : now.AddDate (-(s.i + compensate (now.AddDate (-(s.i + s.weekendCompensator)))
        s.weekendCompensator)) = now.AddDate (-(nextOffset now (s.i - 1 + s.weekendCompensator))) := by
      rw [← hoff]; simp only [loopBody]; congr 2; ring
    obtain ⟨h1, h2, h3, h4⟩ := ih (loopBody stockData now s)
      (by simp only [loopBody]; push_cast at h; omega)
    rw [hoff] at h2 h3 h4
    simp only [loop, hle, if_true, offsets, List.map_cons]
    refine ⟨h1, ?_, ?_, ?_⟩
    · rw [h2]; simp only [loopBody, List.append_assoc, List.singleton_append]; rw [hsel]
    · rw [h3]; simp only [loopBody, List.append_assoc, List.singleton_append]; rw [hsel]
    · rw [h4]; simp only [loopBody, List.foldl_cons]; rw [hsel]

/-- The loop of `getStockCloses` from its initial state, for a day count
`numDays ≥ 0`. -/
theorem windowState_spec (stockData : stockQueryResponse) (now : Time) (numDays : Int)
    (h : 0 ≤ numDays) :
    (windowState stockData now numDays).i = numDays + 1 ∧
    (windowState stockData now numDays).lookedUp =
      (offsets now numDays.toNat 0).map (fun o => now.AddDate (-o)) ∧
    (windowState stockData now numDays).Data =
      (offsets now numDays.toNat 0).map (fun o => stockData.closeAt (now.AddDate (-o)).Format) ∧
    (windowState stockData now numDays).cumulativeStockClose =
      ((offsets now numDays.toNat 0).map
        (fun o => stockData.closeAt (now.AddDate (-o)).Format)).foldl F64.add F64.zero := by
  have := loop_spec stockData now numDays numDays.toNat initState
    (by simp only [initState]; rw [Int.toNat_of_nonneg h]; ring)
  simpa [windowState, initState] using this

/-- The loop guard is false in the final state: the unrolling in
`windowState` runs the loop to its exit. -/
theorem windowState_exit (stockData : stockQueryResponse) (now : Time) (numDays : Int) :
    ¬ (windowState stockData now numDays).i ≤ numDays := by
  rcases le_or_lt 0 numDays with h | h
  · rw [(windowState_spec stockData now numDays h).1]; omega
  · have : numDays.toNat = 0 := Int.toNat_eq_zero.mpr (le_of_lt h)
    simp only [windowState, this, loop, initState]; omega

/-! ## Facts about the float model -/

theorem bitLenAux_spec (fuel n : Nat) (h : n < 2 ^ fuel) :
    n < 2 ^ F64.bitLenAux fuel n ∧ (n ≠ 0 → 2 ^ (F64.bitLenAux fuel n - 1) ≤ n) := by
  induction fuel generalizing n with
  | zero =>
    have : n = 0 := by simpa using h
    subst this; simp [F64.bitLenAux]
  | succ fuel ih =>
    by_cases hn : n = 0
    · subst hn; simp [F64.bitLenAux]
    · have h2 : n / 2 < 2 ^ fuel := by
        rw [pow_succ] at h; omega
      obtain ⟨ih1, ih2⟩ := ih (n / 2) h2
      simp only [F64.bitLenAux, hn, if_false, Nat.add_sub_cancel]
      refine ⟨?_, fun _ => ?_⟩
      · rw [pow_succ]; omega
      · by_cases hh : n / 2 = 0
        · have hb : F64.bitLenAux fuel (n / 2) = 0 := by
            rw [hh]; cases fuel <;> simp [F64.bitLenAux]
          rw [hb]; simp; omega
        · have h3 := ih2 hh
          have hpos : 1 ≤ F64.bitLenAux fuel (n / 2) := by
            by_contra hc
            have : F64.bitLenAux fuel (n / 2) = 0 := by omega
            rw [this] at ih1; simp at ih1; exact hh ih1
          have : 2 ^ F64.bitLenAux fuel (n / 2) = 2 ^ (F64.bitLenAux fuel (n / 2) - 1) * 2 := by
            rw [← pow_succ]; congr 1; omega
          rw [this]; omega

theorem bitLen_spec (n : Nat) :
    n < 2 ^ F64.bitLen n ∧ (n ≠ 0 → 2 ^ (F64.bitLen n - 1) ≤ n) :=
  bitLenAux_spec n n (Nat.lt_two_pow n)


theorem quantum_ge_one (q : ℚ) (fuel : Nat) (p : Int) (h : 1 ≤ q / (2 : ℚ) ^ p) :
    1 ≤ q / (2 : ℚ) ^ F64.quantum q fuel p := by
  induction fuel generalizing p with
  | zero => simpa [F64.quantum] using h
  | succ fuel ih =>
    simp only [F64.quantum]
    split
    · exact h
    · rename_i hlt
      apply ih
      have h53 : (2 : ℚ) ^ 53 ≤ q / (2 : ℚ) ^ p := not_lt.mp hlt
      have hp : (2 : ℚ) ^ (p + 1) = (2 : ℚ) ^ p * 2 := by
        rw [zpow_add₀ (by norm_num : (2 : ℚ) ≠ 0)]; simp
      rw [hp, ← div_div]
      have : (2 : ℚ) ≤ (2 : ℚ) ^ 53 := by norm_num
      linarith

theorem roundHalfEven_ge_one (s : ℚ) (h : 1 ≤ s) : 1 ≤ F64.roundHalfEven s := by
  have hf : (1 : Int) ≤ ⌊s⌋ := Int.le_floor.mpr (by simpa using h)
  unfold F64.roundHalfEven
  simp only
  split_ifs <;> omega

theorem estimate_le (q : ℚ) (h : 1 ≤ q) :
    (2 : ℚ) ^ (max ((F64.bitLen q.num.natAbs : Int) - (F64.bitLen q.den : Int) - 53) (-1074)) ≤ q := by
  have h2 : (2 : ℚ) ≠ 0 := by norm_num
  rcases max_cases ((F64.bitLen q.num.natAbs : Int) - (F64.bitLen q.den : Int) - 53) (-1074)
    with ⟨hm, _⟩ | ⟨hm, _⟩
  · rw [hm]
    have hq0 : 0 < q := by linarith
    have hnum : 0 < q.num := Rat.num_pos.mpr hq0
    have hna : q.num.natAbs ≠ 0 := by omega
    have hN := (bitLen_spec q.num.natAbs).2 hna
    have hD := (bitLen_spec q.den).1
    have hdpos : (0 : ℚ) < q.den := by exact_mod_cast q.den_pos
    have hqe : q = (q.num.natAbs : ℚ) / (q.den : ℚ) := by
      have : ((q.num.natAbs : Int) : ℚ) = (q.num : ℚ) := by
        rw [Int.natAbs_of_nonneg (le_of_lt hnum)]
      rw [← Int.cast_natCast, this]; exact (Rat.num_div_den q).symm
    have hNq : (2 : ℚ) ^ (F64.bitLen q.num.natAbs - 1) ≤ (q.num.natAbs : ℚ) := by
      exact_mod_cast hN
    have hDq : (q.den : ℚ) ≤ (2 : ℚ) ^ (F64.bitLen q.den) := by
      exact_mod_cast le_of_lt hD
    have hb1 : 1 ≤ F64.bitLen q.num.natAbs := by
      by_contra hc
      have h0 : F64.bitLen q.num.natAbs = 0 := by omega
      have := (bitLen_spec q.num.natAbs).1
      rw [h0, pow_zero] at this; omega
    conv_rhs => rw [hqe]
    rw [le_div_iff₀ hdpos]
    calc (2 : ℚ) ^ ((F64.bitLen q.num.natAbs : Int) - (F64.bitLen q.den : Int) - 53) * (q.den : ℚ)
        ≤ (2 : ℚ) ^ ((F64.bitLen q.num.natAbs : Int) - (F64.bitLen q.den : Int) - 53)
            * (2 : ℚ) ^ (F64.bitLen q.den) := by
          apply mul_le_mul_of_nonneg_left hDq (le_of_lt (zpow_pos (by norm_num) _))
      _ = (2 : ℚ) ^ ((F64.bitLen q.num.natAbs : Int) - 53) := by
          rw [← zpow_natCast, ← zpow_add₀ h2]; congr 1; ring
      _ ≤ (2 : ℚ) ^ (((F64.bitLen q.num.natAbs - 1 : Nat) : Int)) := by
          apply zpow_le_zpow_right₀ (by norm_num); omega
      _ = (2 : ℚ) ^ (F64.bitLen q.num.natAbs - 1) := zpow_natCast _ _
      _ ≤ (q.num.natAbs : ℚ) := hNq
  · rw [hm]
    have : (2 : ℚ) ^ (-1074 : Int) ≤ 1 := by
      apply zpow_le_one_of_nonpos₀ (by norm_num) (by norm_num)
    linarith


/-- Rounding a magnitude `≥ 1` never gives a zero or a NaN: the result is a
non-zero finite value or an infinity, with the requested sign. -/
theorem round_ge_one (neg : Bool) (q : ℚ) (h : 1 ≤ q) :
    F64.round neg q = F64.inf neg ∨ ∃ r : ℚ, r ≠ 0 ∧ F64.round neg q = F64.fin neg r := by
  have hq : q ≠ 0 := by intro h0; rw [h0] at h; norm_num at h
  have hs := quantum_ge_one q 2 _
    ((one_le_div₀ (zpow_pos (by norm_num : (0 : ℚ) < 2) _)).mpr (estimate_le q h))
  have hm := roundHalfEven_ge_one _ hs
  simp only [F64.round, hq, if_false]
  split
  · exact Or.inl rfl
  · refine Or.inr ⟨_, ?_, rfl⟩
    have h1 : (0 : ℚ) < (F64.roundHalfEven (q / (2 : ℚ) ^
        F64.quantum q 2 (max ((F64.bitLen q.num.natAbs : Int) - (F64.bitLen q.den : Int) - 53)
          (-1074)) ) : ℚ) :=
      Int.cast_pos.mpr (lt_of_lt_of_le Int.zero_lt_one hm)
    exact ne_of_gt (mul_pos h1 (zpow_pos (by norm_num) _))

theorem round_zero (neg : Bool) : F64.round neg 0 = F64.fin neg 0 := by
  simp [F64.round]

/-- For a positive day count, `0.0 / float64(numDays)` is `0.0`. -/
theorem div_zero_ofInt (n : Int) (h : 0 < n) : F64.div F64.zero (F64.ofInt n) = F64.zero := by
  have hq : (1 : ℚ) ≤ |(n : ℚ)| := by
    rw [abs_of_pos (by exact_mod_cast h)]; exact_mod_cast h
  have hneg : decide (n < 0) = false := by simp; omega
  unfold F64.ofInt
  rw [hneg]
  rcases round_ge_one false _ hq with hr | ⟨r, hr0, hr⟩
  · rw [hr]; simp [F64.div, F64.zero]
  · rw [hr]; simp [F64.div, F64.zero, hr0, round_zero]

theorem add_zero_zero : F64.add F64.zero F64.zero = F64.zero := by
  simp [F64.add, F64.zero]

theorem foldl_add_zeros (n : Nat) :
    (List.replicate n F64.zero).foldl F64.add F64.zero = F64.zero := by
  induction n with
  | zero => rfl
  | succ n ih => simp [List.replicate_succ, add_zero_zero, ih]

theorem average_of_single_100 :
    F64.div (F64.add F64.zero (F64.fin false 100)) (F64.ofInt 1) = F64.fin false 100 := by
  decide!

theorem average_of_10_to_50 :
    ∀ vals ∈ List.permutations
        [F64.fin false 10, F64.fin false 20, F64.fin false 30, F64.fin false 40, F64.fin false 50],
      F64.div (vals.foldl F64.add F64.zero) (F64.ofInt 5) = F64.fin false 30 := by
  decide!

/-! ## The lookups, the closes and their sum -/


/-- The lookups, the closes and their running sum at the end of the loop, for
any day count (none for a negative one). -/
theorem windowState_lists (stockData : stockQueryResponse) (now : Time) (numDays : Int) :
    (windowState stockData now numDays).lookedUp =
      (offsets now numDays.toNat 0).map (fun o => now.AddDate (-o)) ∧
    (windowState stockData now numDays).Data =
      (windowState stockData now numDays).lookedUp.map (fun t => stockData.closeAt t.Format) ∧
    (windowState stockData now numDays).cumulativeStockClose =
      (windowState stockData now numDays).Data.foldl F64.add F64.zero := by
  rcases le_or_lt 0 numDays with h | h
  · obtain ⟨_, h2, h3, h4⟩ := windowState_spec stockData now numDays h
    refine ⟨h2, ?_, ?_⟩
    · rw [h2, h3, List.map_map]; rfl
    · rw [h3, h4]
  · have : numDays.toNat = 0 := Int.toNat_eq_zero.mpr (le_of_lt h)
    simp [windowState, this, loop, initState, offsets]

/-! ## The state after each iteration -/

theorem loop_eq_iterate (stockData : stockQueryResponse) (now : Time) (numDays : Int) (n : Nat)
    (s : LoopState) (h : s.i + n = numDays + 1) :
    loop stockData now numDays n s = (loopBody stockData now)^[n] s := by
  induction n generalizing s with
  | zero => rfl
  | succ n ih =>
    have hle : s.i ≤ numDays := by push_cast at h; omega
    simp only [loop, hle, if_true, Function.iterate_succ_apply]
    exact ih _ (by simp only [loopBody]; push_cast at h; omega)

theorem windowState_eq_stateAfter (stockData : stockQueryResponse) (now : Time) (numDays : Int)
    (h : 0 ≤ numDays) :
    windowState stockData now numDays = stateAfter stockData now numDays.toNat :=
  loop_eq_iterate stockData now numDays numDays.toNat initState
    (by simp only [initState]; rw [Int.toNat_of_nonneg h]; ring)

theorem stateAfter_offset (stockData : stockQueryResponse) (now : Time) (k : Nat) :
    (stateAfter stockData now k).i = k + 1 ∧
    (k : Int) + (stateAfter stockData now k).weekendCompensator = (nextOffset now)^[k] 0 := by
  induction k with
  | zero => simp [stateAfter, initState]
  | succ k ih =>
    obtain ⟨ih1, ih2⟩ := ih
    have hs : stateAfter stockData now (k + 1) = loopBody stockData now (stateAfter stockData now k) := by
      simp only [stateAfter, Function.iterate_succ_apply']
    rw [hs, Function.iterate_succ_apply', ← ih2]
    refine ⟨by simp only [loopBody, ih1]; push_cast; ring, ?_⟩
    simp only [loopBody, nextOffset, ih1]
    rw [compensate_add]
    have : (k : Int) + 1 + (stateAfter stockData now k).weekendCompensator =
        (k : Int) + (stateAfter stockData now k).weekendCompensator + 1 := by ring
    rw [this]
    push_cast
    ring

theorem offsets_getElem (now : Time) (n : Nat) (o : Int) (j : Nat) (h : j < n) :
    (offsets now n o)[j]? = some ((nextOffset now)^[j + 1] o) := by
  induction n generalizing o j with
  | zero => omega
  | succ n ih =>
    cases j with
    | zero => simp [offsets]
    | succ j =>
      simp only [offsets, List.getElem?_cons_succ]
      rw [ih _ j (by omega)]
      simp only [Function.iterate_succ_apply]


theorem loopBody_lookedUp (stockData : stockQueryResponse) (now : Time) (s : LoopState) :
    (loopBody stockData now s).lookedUp =
      s.lookedUp ++
        [now.AddDate (-(s.i + (loopBody stockData now s).weekendCompensator))] := rfl

/-! ## The dates when `AddDate` lands on the requested day -/

/-- Where `AddDate` lands on the requested day, the step from one offset to
the next lands on a business day and passes over weekend days only. -/
theorem nextOffset_spec (now : Time) (o : Int)
    (hgap : ∀ days : Int, (now.AddDate days).day = now.day + days) :
    (now.AddDate (-(nextOffset now o))).Weekday.isBusinessDay = true ∧
    ∀ x, o < x → x < nextOffset now o →
      (now.AddDate (-x)).Weekday.isBusinessDay = false := by
  have hc := compensate_cases (now.AddDate (-(o + 1)))
  rw [hgap] at hc
  refine ⟨?_, ?_⟩
  · rw [business_iff, hgap]; unfold nextOffset
    rcases hc with h | h | h <;> rw [h.1] <;> omega
  · intro x hx1 hx2
    have hb := business_iff (now.AddDate (-x))
    rw [hgap] at hb
    have : ¬ (now.AddDate (-x)).Weekday.isBusinessDay = true := by
      rw [hb]; unfold nextOffset at hx2
      rcases hc with h | h | h <;> rw [h.1] at hx2 <;> omega
    simpa using this

theorem offsets_business (now : Time) (n : Nat) (o : Int)
    (hgap : ∀ days : Int, (now.AddDate days).day = now.day + days) :
    ∀ y ∈ offsets now n o, (now.AddDate (-y)).Weekday.isBusinessDay = true := by
  induction n generalizing o with
  | zero => intro y hy; simp [offsets] at hy
  | succ n ih =>
    intro y hy
    simp only [offsets, List.mem_cons] at hy
    rcases hy with hy | hy
    · rw [hy]; exact (nextOffset_spec now o hgap).1
    · exact ih _ y hy

theorem offsets_complete (now : Time) (n : Nat) (o : Int)
    (hgap : ∀ days : Int, (now.AddDate days).day = now.day + days) :
    ∀ x, o < x → (∃ y ∈ offsets now n o, x ≤ y) →
      (now.AddDate (-x)).Weekday.isBusinessDay = true → x ∈ offsets now n o := by
  induction n generalizing o with
  | zero => intro x _ h; simp [offsets] at h
  | succ n ih =>
    intro x hox hex hb
    simp only [offsets, List.mem_cons]
    by_cases hx : x ≤ nextOffset now o
    · left
      by_contra hne
      have hlt : x < nextOffset now o := lt_of_le_of_ne hx hne
      have := (nextOffset_spec now o hgap).2 x hox hlt
      rw [this] at hb
      exact Bool.false_ne_true hb
    · right
      obtain ⟨y, hy, hxy⟩ := hex
      simp only [offsets, List.mem_cons] at hy
      rcases hy with hy | hy
      · omega
      · exact ih _ x (by omega) ⟨y, hy, hxy⟩ hb

theorem nextOffset_eq (now : Time) (o : Int)
    (hgap : ∀ days : Int, (now.AddDate days).day = now.day + days) :
    ((now.day - o + 3) % 7 = 6 → nextOffset now o = o + 2) ∧
    ((now.day - o + 3) % 7 = 0 → nextOffset now o = o + 3) ∧
    (1 ≤ (now.day - o + 3) % 7 → (now.day - o + 3) % 7 ≤ 5 → nextOffset now o = o + 1) := by
  have hc := compensate_cases (now.AddDate (-(o + 1)))
  rw [hgap] at hc
  unfold nextOffset
  refine ⟨fun h => ?_, fun h => ?_, fun h1 h2 => ?_⟩ <;>
    rcases hc with hc | hc | hc <;> omega

theorem monday_residue (now : Time) (h : now.Weekday = .Monday) : (now.day + 4) % 7 = 1 := by
  rcases weekday_cases now with h' | h' | h' | h' | h' | h' | h' <;>
    first
    | exact h'.2
    | (rw [h'.1] at h; exact absurd h (by decide))

theorem offsets_monday_one (now : Time) (h : now.Weekday = .Monday)
    (hgap : ∀ days : Int, (now.AddDate days).day = now.day + days) :
    offsets now 1 0 = [3] := by
  have hr := monday_residue now h
  have h1 := (nextOffset_eq now 0 hgap).2.1 (by omega)
  simp [offsets, h1]

theorem offsets_monday_five (now : Time) (h : now.Weekday = .Monday)
    (hgap : ∀ days : Int, (now.AddDate days).day = now.day + days) :
    offsets now 5 0 = [3, 4, 5, 6, 7] := by
  have hr := monday_residue now h
  have h1 := (nextOffset_eq now 0 hgap).2.1 (by omega)
  have h2 := (nextOffset_eq now 3 hgap).2.2 (by omega) (by omega)
  have h3 := (nextOffset_eq now 4 hgap).2.2 (by omega) (by omega)
  have h4 := (nextOffset_eq now 5 hgap).2.2 (by omega) (by omega)
  have h5 := (nextOffset_eq now 6 hgap).2.2 (by omega) (by omega)
  norm_num at h1 h2 h3 h4 h5
  simp [offsets, h1, h2, h3, h4, h5]

/-- Where `AddDate` lands on the requested day, the days looked up are the
`numDays` most recent business days before the reference day: as many as
asked for, each a Monday-to-Friday day before the reference day, pairwise
distinct, and with no business day left out. -/
theorem window_without_gap (stockData : stockQueryResponse) (now : Time)
    (numDays : Int) (h : 0 ≤ numDays)
    (hgap : ∀ days : Int, (now.AddDate days).day = now.day + days) :
    ((windowState stockData now numDays).lookedUp.length : Int) = numDays ∧
    (∀ t ∈ (windowState stockData now numDays).lookedUp,
      t.Weekday.isBusinessDay = true ∧ t.day < now.day) ∧
    ((windowState stockData now numDays).lookedUp.map Time.day).Nodup ∧
    (∀ t ∈ (windowState stockData now numDays).lookedUp, ∀ d : Int,
      1 ≤ (d + 4) % 7 → (d + 4) % 7 ≤ 5 → t.day ≤ d → d < now.day →
        d ∈ (windowState stockData now numDays).lookedUp.map Time.day) := by
  rw [(windowState_lists stockData now numDays).1]
  refine ⟨?_, ?_, ?_, ?_⟩
  · rw [List.length_map, offsets_length, Int.toNat_of_nonneg h]
  · intro t ht
    obtain ⟨o, ho, rfl⟩ := List.mem_map.mp ht
    refine ⟨offsets_business now _ 0 hgap o ho, ?_⟩
    have := offsets_gt now _ 0 o ho
    rw [hgap]; omega
  · rw [List.map_map]
    apply List.Nodup.map
    · intro a b hab
      simp only [Function.comp, hgap] at hab; omega
    · exact (offsets_pairwise now _ 0).imp (fun hab => ne_of_lt hab)
  · intro t ht d hd1 hd2 htd hdn
    obtain ⟨o, ho, rfl⟩ := List.mem_map.mp ht
    rw [hgap] at htd
    rw [List.map_map]
    apply List.mem_map.mpr
    refine ⟨now.day - d, ?_, ?_⟩
    · apply offsets_complete now _ 0 hgap _ (by omega) ⟨o, ho, by omega⟩
      rw [business_iff, hgap]
      have : now.day + -(now.day - d) = d := by ring
      rw [this]; exact ⟨hd1, hd2⟩
    · simp only [Function.comp, hgap]; ring

/-- Where `AddDate` lands on the requested day, the lookups go strictly back
in time, and the first one is the most recent business day before the
reference day. -/
theorem dates_decrease_without_gap (stockData : stockQueryResponse) (now : Time)
    (numDays : Int) (h : 1 ≤ numDays)
    (hgap : ∀ days : Int, (now.AddDate days).day = now.day + days) :
    (windowState stockData now numDays).lookedUp.Pairwise (fun a b => b.day < a.day) ∧
    (∃ t : Time, (windowState stockData now numDays).lookedUp.head? = some t ∧
      t.Weekday.isBusinessDay = true ∧ t.day < now.day ∧
      ∀ d : Int, t.day < d → d < now.day → ¬ (1 ≤ (d + 4) % 7 ∧ (d + 4) % 7 ≤ 5)) := by
  have hl := (windowState_lists stockData now numDays).1
  refine ⟨?_, ?_⟩
  · rw [hl, List.pairwise_map]
    exact (offsets_pairwise now _ 0).imp (fun hab => by rw [hgap, hgap]; omega)
  · obtain ⟨n, hn⟩ : ∃ n, numDays.toNat = n + 1 := ⟨numDays.toNat - 1, by omega⟩
    obtain ⟨s1, _⟩ := nextOffset_bounds now 0
    obtain ⟨s3, s4⟩ := nextOffset_spec now 0 hgap
    refine ⟨now.AddDate (-(nextOffset now 0)), ?_, s3, ?_, ?_⟩
    · rw [hl, hn]; simp [offsets]
    · rw [hgap]; omega
    · intro d hd1 hd2
      rw [hgap] at hd1
      have := s4 (now.day - d) (by omega) (by omega)
      have hb := business_iff (now.AddDate (-(now.day - d)))
      rw [hgap] at hb
      have e : now.day + -(now.day - d) = d := by ring
      rw [e] at hb
      rw [← hb, this]; exact Bool.false_ne_true

/-- On a Monday, where `AddDate` lands on the requested day, one day back is
the Friday three days before and five days back are Friday to Monday of the
week before. -/
theorem monday_without_gap (stockData : stockQueryResponse) (now : Time)
    (h : now.Weekday = .Monday)
    (hgap : ∀ days : Int, (now.AddDate days).day = now.day + days) :
    (windowState stockData now 1).lookedUp.map Time.day = [now.day - 3] ∧
    (windowState stockData now 5).lookedUp.map Time.day =
      [now.day - 3, now.day - 4, now.day - 5, now.day - 6, now.day - 7] := by
  constructor
  · rw [(windowState_lists stockData now 1).1]
    simp [offsets_monday_one now h hgap, hgap]; ring
  · rw [(windowState_lists stockData now 5).1]
    simp [offsets_monday_five now h hgap, hgap]
    refine ⟨?_, ?_, ?_, ?_, ?_⟩ <;> ring

/-! ## The claims -/

/-- C2: for every reference date, every series and every day count
`numDays ≥ 0`, the `Data` slice of the response has exactly `numDays` entries,
whether or not the selected dates are keys of the series. -/
theorem C2_data_has_numDays_entries (stockSymbol : String) (stockData : stockQueryResponse)
    (now : Time) (numDays : Int) (h : 0 ≤ numDays) :
    ((trailingWindow stockSymbol numDays stockData now).Data.length : Int) = numDays := by
  simp only [trailingWindow]
  rw [(windowState_lists stockData now numDays).2.1, (windowState_lists stockData now numDays).1]
  simp [offsets_length, Int.toNat_of_nonneg h]

/-- C3: for every reference date, every series and every day count
`numDays > 0`, `averageClose` is the (left-to-right float) sum of all the
`numDays` entries of `Data` divided by `float64(numDays)`; an entry whose date
is not a key of the series is `0` in that sum, and the divisor is the requested
count whatever the number of dates present. -/
theorem C3_average_is_sum_over_numDays (stockSymbol : String) (stockData : stockQueryResponse)
    (now : Time) (numDays : Int) (h : 0 < numDays) :
    (trailingWindow stockSymbol numDays stockData now).Close =
      F64.div ((trailingWindow stockSymbol numDays stockData now).Data.foldl F64.add F64.zero)
        (F64.ofInt numDays) ∧
    ((trailingWindow stockSymbol numDays stockData now).Data.length : Int) = numDays ∧
    (trailingWindow stockSymbol numDays stockData now).Data =
      (windowState stockData now numDays).lookedUp.map (fun t => stockData.closeAt t.Format) ∧
    (∀ t : Time, stockData.Series t.Format = none → stockData.closeAt t.Format = F64.zero) := by
  refine ⟨?_, ?_, ?_, ?_⟩
  · simp only [trailingWindow]
    rw [(windowState_lists stockData now numDays).2.2]
  · simp only [trailingWindow]
    rw [(windowState_lists stockData now numDays).2.1, (windowState_lists stockData now numDays).1]
    simp [offsets_length, Int.toNat_of_nonneg (le_of_lt h)]
  · exact (windowState_lists stockData now numDays).2.1
  · intro t ht
    simp [stockQueryResponse.closeAt, ht]

/-- C4: for every reference date, day count and series, and every position
`k < numDays`, the `k`-th entry of `Data` is the series' close for the `k`-th
selected date, formatted year-month-day, when that date is a key of the series,
and `0.0` when it is not; for the empty series all `numDays` entries are `0.0`
and `averageClose` is `0.0`. -/
theorem C4_missing_dates_are_zero (stockSymbol : String) (stockData : stockQueryResponse)
    (now : Time) (numDays : Int) (k : Nat) (hk : (k : Int) < numDays) :
    (∃ t : Time, (windowState stockData now numDays).lookedUp[k]? = some t ∧
      (trailingWindow stockSymbol numDays stockData now).Data[k]? =
        some (match stockData.Series t.Format with
              | some close => close
              | none => F64.zero)) ∧
    (trailingWindow stockSymbol numDays ⟨fun _ => none⟩ now).Data =
      List.replicate numDays.toNat F64.zero ∧
    (trailingWindow stockSymbol numDays ⟨fun _ => none⟩ now).Close = F64.zero := by
  have hpos : 0 < numDays := by omega
  refine ⟨?_, ?_, ?_⟩
  · have hlen : k < (windowState stockData now numDays).lookedUp.length := by
      rw [(windowState_lists stockData now numDays).1, List.length_map, offsets_length]
      omega
    refine ⟨(windowState stockData now numDays).lookedUp[k], List.getElem?_eq_getElem hlen, ?_⟩
    simp only [trailingWindow]
    rw [(windowState_lists stockData now numDays).2.1, List.getElem?_map,
      List.getElem?_eq_getElem hlen]
    simp only [Option.map_some', stockQueryResponse.closeAt]
    cases stockData.Series ((windowState stockData now numDays).lookedUp[k]).Format <;> rfl
  · simp only [trailingWindow]
    rw [(windowState_lists _ now numDays).2.1, (windowState_lists _ now numDays).1]
    simp only [stockQueryResponse.closeAt, Option.getD_none, List.map_map]
    rw [List.eq_replicate_iff]
    refine ⟨by simp [offsets_length], ?_⟩
    intro b hb
    obtain ⟨_, _, rfl⟩ := List.mem_map.mp hb
    rfl
  · have hd : (windowState ⟨fun _ => none⟩ now numDays).Data =
        List.replicate numDays.toNat F64.zero := by
      rw [(windowState_lists _ now numDays).2.1, (windowState_lists _ now numDays).1]
      simp only [stockQueryResponse.closeAt, Option.getD_none, List.map_map]
      rw [List.eq_replicate_iff]
      refine ⟨by simp [offsets_length], ?_⟩
      intro b hb
      obtain ⟨_, _, rfl⟩ := List.mem_map.mp hb
      rfl
    simp only [trailingWindow]
    rw [(windowState_lists _ now numDays).2.2, hd, foldl_add_zeros, div_zero_ofInt numDays hpos]

/-- C7: when the upstream request fails (an error, or a nil response) or the
upstream body fails to decode, the handler makes exactly one call on the
response writer, `http.Error` with the fixed message and status 500: no header
is set and no JSON result is written, and the calls are the same whatever the
error, whose text goes to the server log only. -/
theorem C7_upstream_failure_gives_generic_500 (stockAPIAddr stockSymbol : String)
    (numDays : Int) (now : Time) (err : String) :
    (getStockCloses stockAPIAddr stockSymbol numDays (.getError err) now).writer =
      [.httpError "There was an error processing your request" 500] ∧
    (getStockCloses stockAPIAddr stockSymbol numDays .nilResponse now).writer =
      [.httpError "There was an error processing your request" 500] ∧
    (getStockCloses stockAPIAddr stockSymbol numDays (.decodeError err) now).writer =
      [.httpError "There was an error processing your request" 500] ∧
    (∀ err2 : String,
      (getStockCloses stockAPIAddr stockSymbol numDays (.getError err) now).writer =
        (getStockCloses stockAPIAddr stockSymbol numDays (.decodeError err2) now).writer ∧
      (getStockCloses stockAPIAddr stockSymbol numDays (.getError err) now).writer =
        (getStockCloses stockAPIAddr stockSymbol numDays (.getError err2) now).writer ∧
      (getStockCloses stockAPIAddr stockSymbol numDays (.decodeError err) now).writer =
        (getStockCloses stockAPIAddr stockSymbol numDays (.decodeError err2) now).writer) := by
  refine ⟨rfl, rfl, rfl, fun _ => ⟨rfl, rfl, rfl⟩⟩

/-- C9: for day count 0 and every reference date and series, the loop selects
no date, `Data` is empty and `averageClose` is the float quotient `0.0 / 0.0`,
a NaN; the calculation is a total function and yields this response. -/
theorem C9_zero_days_gives_nan (stockSymbol : String) (stockData : stockQueryResponse)
    (now : Time) :
    (windowState stockData now 0).lookedUp = [] ∧
    trailingWindow stockSymbol 0 stockData now =
      { Stock := stockSymbol, Data := [], Close := F64.nan } ∧
    F64.div F64.zero (F64.ofInt 0) = F64.nan ∧
    (trailingWindow stockSymbol 0 stockData now).Close.isNaN = true := by
  have hdiv : F64.div F64.zero (F64.ofInt 0) = F64.nan := by decide!
  have htw : trailingWindow stockSymbol 0 stockData now =
      { Stock := stockSymbol, Data := [], Close := F64.nan } := by
    simp [trailingWindow, windowState, loop, initState, hdiv]
  refine ⟨rfl, htw, hdiv, ?_⟩
  rw [htw]; rfl

/-- The lookups of a run, seen through any function of the date, do not
depend on the series. -/
theorem lookedUp_map {α : Type} (f : Time → α) (stockData : stockQueryResponse) (now : Time)
    (numDays : Int) :
    (windowState stockData now numDays).lookedUp.map f =
      (offsets now numDays.toNat 0).map (fun o => f (now.AddDate (-o))) := by
  rw [(windowState_lists stockData now numDays).1, List.map_map]; rfl

/-- C8, as the spec states it, fails.  At Monday 2024-01-08 in UTC the
candidate of the first iteration is Sunday 2024-01-07 and the compensator goes
from 0 to 2 in that iteration; the date looked up in the same iteration is the
reference day minus `1 + 2`, Friday 2024-01-05, not the Sunday candidate, and
the Sunday is not looked up in a run of one, two or seven days either. -/
theorem C8_weekend_candidate_not_selected :
    (sampleMonday.AddDate (-(initState.i + initState.weekendCompensator))).Weekday
      = .Sunday ∧
    (sampleMonday.AddDate (-(initState.i + initState.weekendCompensator))).day = 19729 ∧
    (sampleMonday.AddDate (-(initState.i + initState.weekendCompensator))).Format
      = "2024-01-07" ∧
    (∀ stockData : stockQueryResponse,
      (loopBody stockData sampleMonday initState).weekendCompensator = 2 ∧
      (loopBody stockData sampleMonday initState).lookedUp.map Time.day = [19727] ∧
      (loopBody stockData sampleMonday initState).lookedUp.map Time.Weekday = [.Friday] ∧
      (windowState stockData sampleMonday 1).lookedUp.map Time.day = [19727] ∧
      (windowState stockData sampleMonday 2).lookedUp.map Time.day = [19727, 19726] ∧
      (windowState stockData sampleMonday 7).lookedUp.map Time.day =
        [19727, 19726, 19725, 19724, 19723, 19720, 19719]) ∧
    (sampleMonday.AddDate (-3)).Format = "2024-01-05" := by
  refine ⟨by decide, by decide, by decide!, fun stockData => ⟨rfl, rfl, rfl, ?_, ?_, ?_⟩,
    by decide!⟩
  · rw [lookedUp_map]; decide
  · rw [lookedUp_map]; decide
  · rw [lookedUp_map]; decide

/-- C8 amended: the compensator increment of an iteration takes effect in the
same iteration.  From any loop state, the date looked up is
`now.AddDate(0, 0, -(i + weekendCompensator))` with the compensator as updated
in that iteration: one more for a Saturday candidate, two more for a Sunday
candidate, unchanged otherwise.  Where `AddDate` lands on the requested day
for the candidate and for the recomputed `targetDay`, the date looked up for a
weekend candidate is the Friday before it (one day before a Saturday, two days
before a Sunday), and the date looked up is a business day in every case. -/
theorem C8_compensator_applies_in_same_iteration (stockData : stockQueryResponse) (now : Time)
    (s : LoopState)
    (hc : (now.AddDate (-(s.i + s.weekendCompensator))).day =
      now.day + -(s.i + s.weekendCompensator))
    (ht : (now.AddDate (-(s.i + (loopBody stockData now s).weekendCompensator))).day =
      now.day + -(s.i + (loopBody stockData now s).weekendCompensator)) :
    (loopBody stockData now s).lookedUp =
      s.lookedUp ++
        [now.AddDate (-(s.i + (loopBody stockData now s).weekendCompensator))] ∧
    (loopBody stockData now s).weekendCompensator =
      (match (now.AddDate (-(s.i + s.weekendCompensator))).Weekday with
       | .Saturday => s.weekendCompensator + 1
       | .Sunday => s.weekendCompensator + 2
       | _ => s.weekendCompensator) ∧
    ((now.AddDate (-(s.i + s.weekendCompensator))).Weekday = .Saturday →
      (now.AddDate (-(s.i + (loopBody stockData now s).weekendCompensator))).day =
        (now.AddDate (-(s.i + s.weekendCompensator))).day - 1 ∧
      (now.AddDate (-(s.i + (loopBody stockData now s).weekendCompensator))).Weekday
        = .Friday) ∧
    ((now.AddDate (-(s.i + s.weekendCompensator))).Weekday = .Sunday →
      (now.AddDate (-(s.i + (loopBody stockData now s).weekendCompensator))).day =
        (now.AddDate (-(s.i + s.weekendCompensator))).day - 2 ∧
      (now.AddDate (-(s.i + (loopBody stockData now s).weekendCompensator))).Weekday
        = .Friday) ∧
    (now.AddDate (-(s.i + (loopBody stockData now s).weekendCompensator))).Weekday.isBusinessDay
      = true := by
  have hw : (loopBody stockData now s).weekendCompensator =
      compensate (now.AddDate (-(s.i + s.weekendCompensator))) s.weekendCompensator := rfl
  have hcc := compensate_cases (now.AddDate (-(s.i + s.weekendCompensator)))
  have hadd := compensate_add (now.AddDate (-(s.i + s.weekendCompensator))) s.weekendCompensator
  have hwc := weekday_cases (now.AddDate (-(s.i + s.weekendCompensator)))
  have hb := business_iff
    (now.AddDate (-(s.i + (loopBody stockData now s).weekendCompensator)))
  refine ⟨rfl, rfl, fun hsat => ?_, fun hsun => ?_, ?_⟩
  · have h6 : ((now.AddDate (-(s.i + s.weekendCompensator))).day + 4) % 7 = 6 := by
      rcases hwc with h | h | h | h | h | h | h <;>
        first
        | exact h.2
        | (rw [h.1] at hsat; exact absurd hsat (by decide))
    have hv : (loopBody stockData now s).weekendCompensator = s.weekendCompensator + 1 := by
      rw [hw]; simp only [compensate, hsat]
    have hday : (now.AddDate (-(s.i + (loopBody stockData now s).weekendCompensator))).day =
        (now.AddDate (-(s.i + s.weekendCompensator))).day - 1 := by
      rw [ht, hc, hv]; ring
    refine ⟨hday, ?_⟩
    exact weekday_of_residue _ 5 (by rw [hday]; omega)
  · have h0 : ((now.AddDate (-(s.i + s.weekendCompensator))).day + 4) % 7 = 0 := by
      rcases hwc with h | h | h | h | h | h | h <;>
        first
        | exact h.2
        | (rw [h.1] at hsun; exact absurd hsun (by decide))
    have hv : (loopBody stockData now s).weekendCompensator = s.weekendCompensator + 2 := by
      rw [hw]; simp only [compensate, hsun]
    have hday : (now.AddDate (-(s.i + (loopBody stockData now s).weekendCompensator))).day =
        (now.AddDate (-(s.i + s.weekendCompensator))).day - 2 := by
      rw [ht, hc, hv]; ring
    refine ⟨hday, ?_⟩
    exact weekday_of_residue _ 5 (by rw [hday]; omega)
  · rw [hb, ht]
    rw [hw, hadd]
    rw [hc] at hcc
    rcases hcc with h | h | h <;> rw [h.1] <;> omega

/-- C1 does not hold of the code in a gap of the zone.  At Monday 2024-03-11,
00:30 in America/Havana,
the candidate of the first iteration, `now.AddDate(0, 0, -1)`, is 23:30 of
Saturday 2024-03-09 (00:30 of Sunday 2024-03-10 does not exist), so the
compensator becomes 1 and the date looked up is `now.AddDate(0, 0, -2)`, that
same Saturday: with one day the lookup is `2024-03-09`, with three days the
lookups are Saturday, Friday and Thursday, and Wednesday 2024-03-06, the third
business day back, is left out. -/
theorem C1_havana_gap_selects_saturday :
    (havanaMonday.AddDate (-1)).day = 19791 ∧
    (havanaMonday.AddDate (-1)).clock = 84600 ∧
    (havanaMonday.AddDate (-1)).Weekday = .Saturday ∧
    (havanaMonday.AddDate (-2)).Format = "2024-03-09" ∧
    (∀ stockData : stockQueryResponse,
      (loopBody stockData havanaMonday initState).weekendCompensator = 1 ∧
      (windowState stockData havanaMonday 1).lookedUp.map Time.day = [19791] ∧
      (windowState stockData havanaMonday 1).lookedUp.map Time.Weekday = [.Saturday] ∧
      (windowState stockData havanaMonday 3).lookedUp.map Time.day = [19791, 19790, 19789] ∧
      (windowState stockData havanaMonday 3).lookedUp.map Time.Weekday =
        [.Saturday, .Friday, .Thursday]) ∧
    (¬ ∀ t ∈ (windowState emptySeries havanaMonday 1).lookedUp,
      t.Weekday.isBusinessDay = true ∧ t.day < havanaMonday.day) ∧
    (Weekday.ofIndex ((19788 + 4 : Int) % 7).toNat = .Wednesday ∧
      (19788 : Int) ∉ (windowState emptySeries havanaMonday 3).lookedUp.map Time.day) := by
  refine ⟨by decide, by decide, by decide, by decide!,
    fun stockData => ⟨rfl, ?_, ?_, ?_, ?_⟩, ?_, by decide, ?_⟩
  · rw [lookedUp_map]; decide
  · rw [lookedUp_map]; decide
  · rw [lookedUp_map]; decide
  · rw [lookedUp_map]; decide
  · intro hall
    have hmem : havanaMonday.AddDate (-2) ∈ (windowState emptySeries havanaMonday 1).lookedUp := by
      rw [(windowState_lists emptySeries havanaMonday 1).1]
      exact List.mem_map.mpr ⟨2, by decide, rfl⟩
    exact absurd (hall _ hmem).1 (by decide)
  · rw [lookedUp_map]; decide

/-- C5 does not hold of the code in a gap of the zone.  Monday 2024-03-11,
00:30 in America/Havana, with one day: the single date looked up is the reference day minus 2,
Saturday 2024-03-09, not the Friday three days back; with a series whose only
entry is that Friday, 2024-03-08, with close 100.0, `Data` is `[0.0]` and
`averageClose` is `0.0`. -/
theorem C5_havana_gap_monday_one_day :
    havanaMonday.Weekday = .Monday ∧
    (havanaMonday.AddDate (-3)).Format = "2024-03-08" ∧
    (havanaMonday.AddDate (-3)).Weekday = .Friday ∧
    (∀ stockData : stockQueryResponse,
      (windowState stockData havanaMonday 1).lookedUp.map Time.day =
        [havanaMonday.day - 2] ∧
      (windowState stockData havanaMonday 1).lookedUp.map Time.Weekday = [.Saturday]) ∧
    trailingWindow "IBM" 1
        ⟨fun key => if key = (havanaMonday.AddDate (-3)).Format then some (F64.fin false 100)
          else none⟩
        havanaMonday =
      { Stock := "IBM", Data := [F64.fin false 0], Close := F64.fin false 0 } := by
  refine ⟨by decide, by decide!, by decide, fun stockData => ⟨?_, ?_⟩, by decide!⟩
  · rw [lookedUp_map]; decide
  · rw [lookedUp_map]; decide

/-- C6 does not hold of the code in a gap of the zone.  Monday 2024-03-11,
00:30 in America/Havana, with five days: the dates looked up are the reference day minus 2, 3, 4, 5
and 6, Saturday back to Tuesday, not Friday back to Monday; with the closes
10, 20, 30, 40 and 50 on Monday 2024-03-04 to Friday 2024-03-08, `Data` is
`[0, 50, 40, 30, 20]` and `averageClose` is `28.0`. -/
theorem C6_havana_gap_monday_five_days :
    havanaMonday.Weekday = .Monday ∧
    (∀ stockData : stockQueryResponse,
      (windowState stockData havanaMonday 5).lookedUp.map Time.day =
        [havanaMonday.day - 2, havanaMonday.day - 3, havanaMonday.day - 4,
          havanaMonday.day - 5, havanaMonday.day - 6] ∧
      (windowState stockData havanaMonday 5).lookedUp.map Time.Weekday =
        [.Saturday, .Friday, .Thursday, .Wednesday, .Tuesday]) ∧
    trailingWindow "IBM" 5 havanaWeekSeries havanaMonday =
      { Stock := "IBM",
        Data := [F64.fin false 0, F64.fin false 50, F64.fin false 40, F64.fin false 30,
          F64.fin false 20],
        Close := F64.fin false 28 } := by
  refine ⟨by decide, fun stockData => ⟨?_, ?_⟩, by decide!⟩
  · rw [lookedUp_map]; decide
  · rw [lookedUp_map]; decide

/-- C10 does not hold of the code in a gap of the zone.  Monday 2024-03-11,
00:30 in America/Havana, with three days:
the offsets `i + weekendCompensator` are 2, 3, 4 (at least 1 and increasing),
but the first entry belongs to Saturday 2024-03-09, which is not a business
day, while Friday 2024-03-08, the most recent business day before the
reference date, comes second. -/
theorem C10_havana_gap_first_entry_saturday :
    (∀ stockData : stockQueryResponse,
      (List.range 3).map (fun i => ((i + 1 : Nat) : Int) +
          (stateAfter stockData havanaMonday (i + 1)).weekendCompensator) = [2, 3, 4] ∧
      (windowState stockData havanaMonday 3).lookedUp.map Time.day = [19791, 19790, 19789] ∧
      (windowState stockData havanaMonday 3).lookedUp.map Time.Weekday =
        [.Saturday, .Friday, .Thursday] ∧
      (windowState stockData havanaMonday 3).lookedUp.map
        (fun t => t.Weekday.isBusinessDay) = [false, true, true] ∧
      (windowState stockData havanaMonday 3).lookedUp.map Time.Format =
        ["2024-03-09", "2024-03-08", "2024-03-07"]) ∧
    (havanaMonday.AddDate (-3)).day = 19790 ∧
    (havanaMonday.AddDate (-3)).Weekday.isBusinessDay = true ∧
    (havanaMonday.AddDate (-3)).day < havanaMonday.day := by
  refine ⟨fun stockData => ⟨?_, ?_, ?_, ?_, ?_⟩, by decide, by decide, by decide⟩
  · have e : ∀ k : Nat, (k : Int) + (stateAfter stockData havanaMonday k).weekendCompensator =
        (nextOffset havanaMonday)^[k] 0 := fun k => (stateAfter_offset stockData havanaMonday k).2
    simp only [List.range, List.range.loop, List.map_cons, List.map_nil, e]
    decide
  · rw [lookedUp_map]; decide
  · rw [lookedUp_map]; decide
  · rw [lookedUp_map]; decide
  · rw [lookedUp_map]; decide!

/-! ## The claims at sample inputs -/

/-- C2 at Monday 2024-01-08 with 3 days and the empty series. -/
theorem C2_witness :
    (0 : Int) ≤ 3 ∧
    ((trailingWindow "IBM" 3 emptySeries sampleMonday).Data.length : Int) = 3 :=
  ⟨by decide, C2_data_has_numDays_entries "IBM" emptySeries sampleMonday 3 (by decide)⟩


/-- C3 at Monday 2024-01-08 with 2 days and a series that has Friday
2024-01-05 (close 100) but not Thursday 2024-01-04: `Data` is `[100, 0]` and
the average is `100 / 2 = 50`, not `100 / 1`. -/
theorem C3_witness :
    (0 : Int) < 2 ∧
    trailingWindow "IBM" 2 fridaySeries sampleMonday =
      { Stock := "IBM", Data := [F64.fin false 100, F64.fin false 0],
        Close := F64.fin false 50 } ∧
    ((trailingWindow "IBM" 2 fridaySeries sampleMonday).Close =
      F64.div ((trailingWindow "IBM" 2 fridaySeries sampleMonday).Data.foldl F64.add F64.zero)
        (F64.ofInt 2) ∧
    ((trailingWindow "IBM" 2 fridaySeries sampleMonday).Data.length : Int) = 2 ∧
    (trailingWindow "IBM" 2 fridaySeries sampleMonday).Data =
      (windowState fridaySeries sampleMonday 2).lookedUp.map
        (fun t => fridaySeries.closeAt t.Format) ∧
    (∀ t : Time, fridaySeries.Series t.Format = none →
      fridaySeries.closeAt t.Format = F64.zero)) :=
  ⟨by decide, by decide!,
    C3_average_is_sum_over_numDays "IBM" fridaySeries sampleMonday 2 (by decide)⟩

/-- C4 at Monday 2024-01-08 with 3 days, position 1 (Thursday 2024-01-04, not
a key of the series): the entry is `0.0`. -/
theorem C4_witness :
    ((1 : Nat) : Int) < 3 ∧
    (trailingWindow "IBM" 3 fridaySeries sampleMonday).Data =
      [F64.fin false 100, F64.fin false 0, F64.fin false 0] ∧
    ((∃ t : Time, (windowState fridaySeries sampleMonday 3).lookedUp[1]? = some t ∧
      (trailingWindow "IBM" 3 fridaySeries sampleMonday).Data[1]? =
        some (match fridaySeries.Series t.Format with
              | some close => close
              | none => F64.zero)) ∧
    (trailingWindow "IBM" 3 ⟨fun _ => none⟩ sampleMonday).Data =
      List.replicate (3 : Int).toNat F64.zero ∧
    (trailingWindow "IBM" 3 ⟨fun _ => none⟩ sampleMonday).Close = F64.zero) :=
  ⟨by decide, by decide!,
    C4_missing_dates_are_zero "IBM" fridaySeries sampleMonday 3 1 (by decide)⟩

/-- C8 amended, at the first iteration of Monday 2024-01-08 in UTC: the
candidate is Sunday 2024-01-07, the compensator becomes 2 and the lookup is
two days before the candidate, Friday 2024-01-05. -/
theorem C8_witness :
    (sampleMonday.AddDate (-(initState.i + initState.weekendCompensator))).day =
      sampleMonday.day + -(initState.i + initState.weekendCompensator) ∧
    (sampleMonday.AddDate
      (-(initState.i + (loopBody emptySeries sampleMonday initState).weekendCompensator))).day =
      sampleMonday.day +
        -(initState.i + (loopBody emptySeries sampleMonday initState).weekendCompensator) ∧
    (sampleMonday.AddDate (-(initState.i + initState.weekendCompensator))).Weekday = .Sunday ∧
    (loopBody emptySeries sampleMonday initState).weekendCompensator = 2 ∧
    ((sampleMonday.AddDate
      (-(initState.i + (loopBody emptySeries sampleMonday initState).weekendCompensator))).day =
      (sampleMonday.AddDate (-(initState.i + initState.weekendCompensator))).day - 2 ∧
    (sampleMonday.AddDate
      (-(initState.i + (loopBody emptySeries sampleMonday initState).weekendCompensator))).Weekday
        = .Friday) :=
  ⟨by decide, by decide, by decide, by decide,
    (C8_compensator_applies_in_same_iteration emptySeries sampleMonday initState
      (by decide) (by decide)).2.2.2.1 (by decide)⟩

end StockService
